import Mathlib

/-!
Verification of the GaleMind inference-server core against its
natural-language specification.

The development shallowly embeds the Rust sources:
* `src/foundation/src/model/circular_buffer.rs` (`CircularBuffer`)
* `src/foundation/src/model/model_discovery_service.rs` /
  `model_manager.rs` (`ModelId`, `ModelDiscoveryService`)
* `src/foundation/src/api/mlflow_client.rs` (`MLFlowClient.get_model`)
* `src/foundation/src/model/scheduler.rs` (`EventDrivenModelManager`)

Machine integers are modelled as `Nat` (indices never overflow in the
relevant fragments); fallible operations (Rust panics, `Result`) are
modelled with `Option` / `Except`.  A Rust operation that can panic is
embedded as an `Option`-valued function returning `none` exactly on the
panicking inputs.
-/

namespace GaleMind

/-! ## Circular buffer (`circular_buffer.rs`)

```rust
pub struct CircularBuffer<T> { buffer: Vec<T>, capacity: usize, index: usize }
```
The `Vec<T>` is a `List T`; `usize` is `Nat`. -/

structure CircularBuffer (T : Type u) where
  buffer : List T
  capacity : Nat
  index : Nat
deriving Repr

namespace CircularBuffer

/-- `CircularBuffer::new(capacity)`: `Vec::with_capacity` yields an empty
vector, `index` starts at 0.  The constructor accepts any capacity,
including 0. -/
def new (T : Type u) (capacity : Nat) : CircularBuffer T :=
  { buffer := [], capacity := capacity, index := 0 }

/-- `CircularBuffer::push`.  Faithful to the Rust body

```rust
if self.buffer.len() < self.capacity { self.buffer.push(item); }
else { self.buffer[self.index] = item; }
self.index = (self.index + 1) % self.capacity;
```

The indexed store `self.buffer[self.index] = item` panics when
`index ≥ len`, and `% self.capacity` panics when `capacity = 0`; both
panics are modelled as `none`. -/
def push (cb : CircularBuffer T) (item : T) : Option (CircularBuffer T) := do
  let buf ←
    if cb.buffer.length < cb.capacity then
      some (cb.buffer ++ [item])
    else if cb.index < cb.buffer.length then
      some (cb.buffer.set cb.index item)
    else
      none
  let idx ← if cb.capacity = 0 then none else some ((cb.index + 1) % cb.capacity)
  some { buffer := buf, capacity := cb.capacity, index := idx }

/-- `CircularBuffer::items`: a read-only view of the backing vector. -/
def items (cb : CircularBuffer T) : List T :=
  cb.buffer

/-- `CircularBuffer::len`. -/
def len (cb : CircularBuffer T) : Nat :=
  cb.buffer.length

/-- `CircularBuffer::is_empty`. -/
def is_empty (cb : CircularBuffer T) : Bool :=
  cb.buffer.isEmpty

/-- `CircularBuffer::is_full`. -/
def is_full (cb : CircularBuffer T) : Bool :=
  cb.buffer.length == cb.capacity

/-- A whole sequence of pushes, oldest first; `none` as soon as one push
panics. -/
def pushAll (cb : CircularBuffer T) : List T → Option (CircularBuffer T)
  | [] => some cb
  | x :: xs => do
    let cb1 ← cb.push x
    pushAll cb1 xs

end CircularBuffer

/-! ## Rust path semantics

`ModelId::from_path` (in `model_discovery_service.rs` and, identically, in
`model_manager.rs`) relies on `std::path::Path::file_name` and
`Path::extension`.  A path is a character list; the Unix rules of
`std::path` are reproduced:

* `file_name`: the last normal component — empty segments and `"."`
  segments are skipped; a path whose last component is `".."` (or that has
  no normal component at all) has no file name.  In particular a trailing
  separator is normalized away.
* `extension`: split the file name at its last `'.'`; if the part before
  that dot is empty (hidden files such as `".gitignore"`) there is no
  extension, otherwise the extension is the part after the dot (possibly
  empty, as for `"foo."`). -/

namespace RustPath

/-- Splitting a character list on a separator, in the manner of
`str::split`: `n` separators yield `n + 1` (possibly empty) segments. -/
def splitOnChar (sep : Char) : List Char → List (List Char)
  | [] => [[]]
  | ch :: cs =>
    if ch = sep then [] :: splitOnChar sep cs
    else
      match splitOnChar sep cs with
      | [] => [[ch]]
      | s :: rest => (ch :: s) :: rest

/-- The candidate components of a path: non-empty segments other than
`"."`.  (Rust keeps a leading `CurDir` component; it can never be the last
normal component, so it is irrelevant to `file_name`.) -/
def pathSegments (p : List Char) : List (List Char) :=
  (splitOnChar '/' p).filter (fun s => !(s == [] || s == ['.']))

/-- `Path::file_name`: the final normal component; `none` when there is no
normal component or the path terminates in `".."`. -/
def fileName (p : List Char) : Option (List Char) :=
  match (pathSegments p).getLast? with
  | some s => if s = ['.', '.'] then none else some s
  | none => none

/-- `Path::extension`: the portion of the file name after its last dot,
provided the portion before that dot is non-empty.  (The `".."` guard of
Rust's `split_file_at_dot` is unreachable here because `fileName` never
returns `".."`; it is kept for faithfulness.) -/
def extension (p : List Char) : Option (List Char) :=
  match fileName p with
  | none => none
  | some f =>
    if f = ['.', '.'] then none
    else
      match splitOnChar '.' f with
      | [] => none
      | [_] => none
      | [before, after] => if before = [] then none else some after
      | parts => parts.getLast?

end RustPath

/-- `pub struct ModelId(pub String)` (`model_discovery_service.rs`). -/
structure ModelId where
  val : String
deriving Repr, DecidableEq

namespace ModelId

/-- `ModelId::from_path`.  Faithful to

```rust
if models_path.file_name().is_none() || models_path.extension().is_none() {
    return None;
}
models_path.file_name().and_then(|s| s.to_str()).map(|m| ModelId(m.to_string()))
```

`OsStr::to_str` cannot fail in this model (all character lists are valid
strings). -/
def from_path (p : List Char) : Option ModelId :=
  if (RustPath.fileName p).isNone || (RustPath.extension p).isNone then none
  else (RustPath.fileName p).map (fun f => ModelId.mk (String.mk f))

/-- `ModelId::from_string`. -/
def from_string (s : String) : ModelId :=
  ModelId.mk s

/-- `ModelId::from_url`:

```rust
url.split('/').last().filter(|s| !s.is_empty()).map(|s| ModelId(s.to_string()))
``` -/
def from_url (url : List Char) : Option ModelId :=
  (RustPath.splitOnChar '/' url).getLast?.bind
    (fun s => if s = [] then none else some (ModelId.mk (String.mk s)))

end ModelId

/-! ## MLflow registry client (`api/mlflow_client.rs`) -/

/-- `MLFlowModel` (`mlflow_client.rs`).  The `HashMap<String, String>` tag
map is modelled as an association list. -/
structure MLFlowModel where
  name : String
  version : Option String
  creation_timestamp : Option Int
  last_updated_timestamp : Option Int
  description : Option String
  tags : Option (List (String × String))
deriving Repr, DecidableEq

/-- Outcome of one HTTP GET as seen by `get_model`: either a transport
error from `reqwest` or a response with a status code and a body. -/
inductive HttpOutcome where
  | transportError (msg : String)
  | response (status : Nat) (body : String)
deriving Repr, DecidableEq

/-- The failure taxonomy of `MLFlowClient::get_model`: transport errors
propagated by `?`, JSON-decoding failures propagated by
`response.json().await?`, and the `anyhow!` error built from a non-success
status and the response body. -/
inductive MLFlowError where
  | transport (msg : String)
  | decode (msg : String)
  | registry (status : Nat) (body : String)
deriving Repr, DecidableEq

/-- `reqwest::StatusCode::is_success`: the 2xx range. -/
def statusIsSuccess (status : Nat) : Bool :=
  200 ≤ status && status < 300

/-- `MLFlowClient::get_model` (`mlflow_client.rs` lines 144-165).  The
wire interaction is abstracted into the `HttpOutcome` the server produced
and a `parseBody` function standing for the serde deserialization of
`GetModelResponse`:

```rust
let response = self.build_request(&endpoint).send().await?;
if response.status().is_success() {
    let response_data: GetModelResponse = response.json().await?;
    Ok(Some(response_data.registered_model))
} else if response.status() == reqwest::StatusCode::NOT_FOUND {
    Ok(None)
} else {
    Err(anyhow!("... status: {}, body: {}", status, text))
}
``` -/
def get_model (outcome : HttpOutcome)
    (parseBody : String → Except String MLFlowModel) :
    Except MLFlowError (Option MLFlowModel) :=
  match outcome with
  | .transportError e => .error (.transport e)
  | .response status body =>
    if statusIsSuccess status then
      match parseBody body with
      | .ok m => .ok (some m)
      | .error e => .error (.decode e)
    else if status = 404 then .ok none
    else .error (.registry status body)

/-! ## Inference data model

Modelled from the spec: `InferenceRequest`, `InferenceResponse` and the
runtime contract live in `foundation/src/api/inference.rs` /
`inference_runtime.rs`, which are not part of the source tree given here;
they are reconstructed from spec §3 and §4.3.  The dispatcher treats
parameters, declared outputs and output payloads opaquely, so they are
collapsed into single opaque `Nat` payload fields. -/

/-- Modelled from the spec: an inference request (§3) — model name,
optional version, caller-supplied request id, and an opaque payload
standing for the parameter map and declared outputs. -/
structure InferenceRequest where
  model_name : String
  model_version : Option String
  request_id : String
  payload : Nat
deriving Repr, DecidableEq

/-- Modelled from the spec: an inference response (§3) — a tagged union of
success (with an opaque output) and failure (with an error descriptor). -/
inductive InferenceResponse where
  | success (output : Nat)
  | failure (error : String)
deriving Repr, DecidableEq

/-- Modelled from the spec: the runtime contract (§4.3) — `model_id`,
`process_single`, and `process_batch`.  The asynchronous calls are given
by their result values. -/
structure InferenceRuntime where
  model_id : String
  process_single : InferenceRequest → InferenceResponse
  process_batch : List InferenceRequest → List InferenceResponse

/-! ## Model discovery service (`model_discovery_service.rs`) -/

/-- `ModelSource` (`model_discovery_service.rs`). -/
inductive ModelSource where
  | path (p : List Char)
  | url (u : List Char)
  | id (s : String)
  | mlflow (base_url : String) (api_token : Option String)
      (model_name : Option String)

/-- One entry of `fs::read_dir`: its path and whether `file_type()` says
it is a directory. -/
structure DirEntry where
  entry_path : List Char
  is_dir : Bool

/-- The deterministic environment a discovery run interacts with: the
filesystem (`Path::is_dir`, `fs::read_dir`, with per-entry IO failures
collapsed into a directory-level failure) and the MLflow registry
(`get_model` / `list_models` outcomes, keyed by base URL and token).
Running against "the same registry" means reusing one `DiscoveryEnv`. -/
structure DiscoveryEnv where
  isDir : List Char → Bool
  readDir : List Char → Except String (List DirEntry)
  mlflowGet : String → Option String → String →
    Except String (Option MLFlowModel)
  mlflowList : String → Option String → Except String (List MLFlowModel)

/-- `ModelDiscoveryService`: the `DashMap<ModelId, Mutex<CircularBuffer<…>>>`
is an association list (insertion order; keys unique by construction). -/
structure ModelDiscoveryService where
  models : List (ModelId × CircularBuffer InferenceRequest)
  models_buffer_capacity : Nat

namespace ModelDiscoveryService

/-- `ModelDiscoveryService::new`. -/
def new (models_buffer_capacity : Nat) : ModelDiscoveryService :=
  { models := [], models_buffer_capacity := models_buffer_capacity }

/-- `DashMap::contains_key` on the registration map. -/
def containsModel (s : ModelDiscoveryService) (id : ModelId) : Bool :=
  s.models.any (fun kv => kv.1 == id)

/-- `ModelDiscoveryService::register_model`:

```rust
self.models.entry(model_id)
    .or_insert_with(|| Mutex::new(CircularBuffer::new(self.models_buffer_capacity)));
```

`entry(..).or_insert_with` keeps an existing entry untouched. -/
def register_model (s : ModelDiscoveryService) (id : ModelId) :
    ModelDiscoveryService :=
  if s.containsModel id then s
  else
    { s with
      models :=
        s.models ++
          [(id, CircularBuffer.new InferenceRequest s.models_buffer_capacity)] }

/-- Registering a whole list of ids, left to right. -/
def registerList (s : ModelDiscoveryService) (ids : List ModelId) :
    ModelDiscoveryService :=
  ids.foldl register_model s

/-- The ids a directory scan yields: entries that are directories and
whose path parses as a `ModelId` (shared loop body of
`load_models_from_dir` and `discover_from_directory`). -/
def dirModelIds (entries : List DirEntry) : List ModelId :=
  entries.filterMap
    (fun ent => if ent.is_dir then ModelId.from_path ent.entry_path else none)

/-- `ModelDiscoveryService::load_models_from_dir`: scan the directory and
register every subdirectory whose path yields a valid id. -/
def load_models_from_dir (env : DiscoveryEnv) (s : ModelDiscoveryService)
    (dir : List Char) : Except String ModelDiscoveryService :=
  match env.readDir dir with
  | .error e => .error e
  | .ok entries => .ok (s.registerList (dirModelIds entries))

/-- `ModelDiscoveryService::discover_from_directory`: scan the directory
and collect (without registering) the valid subdirectory ids. -/
def discover_from_directory (env : DiscoveryEnv) (dir : List Char) :
    Except String (List ModelId) :=
  match env.readDir dir with
  | .error e => .error e
  | .ok entries => .ok (dirModelIds entries)

/-- `ModelDiscoveryService::discover_from_mlflow`: with a name, register
the single model `get_model` returns (if any); without one, register every
model `list_models` returns. -/
def discover_from_mlflow (env : DiscoveryEnv) (s : ModelDiscoveryService)
    (base_url : String) (api_token : Option String)
    (model_name : Option String) :
    ModelDiscoveryService × Except String (List ModelId) :=
  match model_name with
  | some specific =>
    match env.mlflowGet base_url api_token specific with
    | .error e => (s, .error e)
    | .ok none => (s, .ok [])
    | .ok (some m) =>
      let id := ModelId.from_string m.name
      (s.register_model id, .ok [id])
  | none =>
    match env.mlflowList base_url api_token with
    | .error e => (s, .error e)
    | .ok ms =>
      (s.registerList (ms.map (fun m => ModelId.from_string m.name)),
        .ok (ms.map (fun m => ModelId.from_string m.name)))

/-- One iteration of the `for source in sources` loop of
`discover_models`. -/
def discoverStep (env : DiscoveryEnv) (s : ModelDiscoveryService) :
    ModelSource → ModelDiscoveryService × Except String (List ModelId)
  | .path p =>
    if env.isDir p then
      match load_models_from_dir env s p with
      | .error e => (s, .error e)
      | .ok s1 =>
        match discover_from_directory env p with
        | .error e => (s1, .error e)
        | .ok ids => (s1, .ok ids)
    else
      match ModelId.from_path p with
      | some id => (s.register_model id, .ok [id])
      | none => (s, .ok [])
  | .url u =>
    match ModelId.from_url u with
    | some id => (s.register_model id, .ok [id])
    | none => (s, .ok [])
  | .id str =>
    let id := ModelId.from_string str
    (s.register_model id, .ok [id])
  | .mlflow base_url api_token model_name =>
    discover_from_mlflow env s base_url api_token model_name

/-- `ModelDiscoveryService::discover_models`: process the sources in
order, accumulating the discovered ids; an `?`-propagated error stops the
loop but keeps the registrations made so far (the map lives behind
`&self`). -/
def discover_models (env : DiscoveryEnv) (s : ModelDiscoveryService) :
    List ModelSource → ModelDiscoveryService × Except String (List ModelId)
  | [] => (s, .ok [])
  | src :: rest =>
    match discoverStep env s src with
    | (s1, .error e) => (s1, .error e)
    | (s1, .ok ids) =>
      match discover_models env s1 rest with
      | (s2, .error e) => (s2, .error e)
      | (s2, .ok ids2) => (s2, .ok (ids ++ ids2))

/-- The ids one source causes `discoverStep` to register — a pure function
of the (deterministic) environment, independent of the service state. -/
def stepRegIds (env : DiscoveryEnv) : ModelSource → List ModelId
  | .path p =>
    if env.isDir p then
      match env.readDir p with
      | .error _ => []
      | .ok entries => dirModelIds entries
    else
      match ModelId.from_path p with
      | some id => [id]
      | none => []
  | .url u =>
    match ModelId.from_url u with
    | some id => [id]
    | none => []
  | .id str => [ModelId.from_string str]
  | .mlflow base_url api_token model_name =>
    match model_name with
    | some specific =>
      match env.mlflowGet base_url api_token specific with
      | .ok (some m) => [ModelId.from_string m.name]
      | .ok none => []
      | .error _ => []
    | none =>
      match env.mlflowList base_url api_token with
      | .ok ms => ms.map (fun m => ModelId.from_string m.name)
      | .error _ => []

/-- The result value of one `discoverStep` — also independent of the
service state. -/
def stepOutcome (env : DiscoveryEnv) :
    ModelSource → Except String (List ModelId)
  | .path p =>
    if env.isDir p then
      match env.readDir p with
      | .error e => .error e
      | .ok entries => .ok (dirModelIds entries)
    else
      match ModelId.from_path p with
      | some id => .ok [id]
      | none => .ok []
  | .url u =>
    match ModelId.from_url u with
    | some id => .ok [id]
    | none => .ok []
  | .id str => .ok [ModelId.from_string str]
  | .mlflow base_url api_token model_name =>
    match model_name with
    | some specific =>
      match env.mlflowGet base_url api_token specific with
      | .ok (some m) => .ok [ModelId.from_string m.name]
      | .ok none => .ok []
      | .error e => .error e
    | none =>
      match env.mlflowList base_url api_token with
      | .ok ms => .ok (ms.map (fun m => ModelId.from_string m.name))
      | .error e => .error e

/-- All ids a whole discovery run registers (stopping at the first
erroring source). -/
def runRegIds (env : DiscoveryEnv) : List ModelSource → List ModelId
  | [] => []
  | src :: rest =>
    match stepOutcome env src with
    | .error _ => stepRegIds env src
    | .ok _ => stepRegIds env src ++ runRegIds env rest

/-- The result value of a whole discovery run. -/
def runOutcome (env : DiscoveryEnv) :
    List ModelSource → Except String (List ModelId)
  | [] => .ok []
  | src :: rest =>
    match stepOutcome env src with
    | .error e => .error e
    | .ok ids =>
      match runOutcome env rest with
      | .error e => .error e
      | .ok ids2 => .ok (ids ++ ids2)

end ModelDiscoveryService

/-! ## Event-driven scheduler (`scheduler.rs`)

Tokio one-shot channels are modelled as entries of a channel table
`List (Nat × Option InferenceResponse)`: an entry `(c, none)` is an
allocated channel on which nothing has been sent yet, `(c, some v)` one on
which `v` was sent.  The buffer-event MPSC channel is a queue of
`BufferEvent`s (its small constant bound is abstracted away; events the
code would drop on overflow are simply still in the queue, which only
enlarges the set of reachable schedules). -/

/-- `BufferEvent` (`buffer_events.rs` is absent from the source tree;
variants and field names are taken from the `match` in
`EventDrivenModelManager::handle_buffer_event` and spec §4.4). -/
inductive BufferEvent where
  | thresholdReached (model_id : String) (current_size : Nat) (capacity : Nat)
      (fill_percentage : Rat)
  | bufferFull (model_id : String) (buffer_contents : List InferenceRequest)
      (buffer_capacity : Nat)
  | bufferStats (model_id : String) (current_size : Nat) (capacity : Nat)
      (fill_percentage : Rat)
deriving Repr, DecidableEq

/-- Modelled from the spec: `InferenceBuffer` (§4.2;
`inference_buffer.rs` is absent from the source tree) — a ring buffer plus
model id, threshold percentage and the rising-edge flag
`was_above_threshold`.  The event emitter handle is implicit: `push`
returns the events it emits. -/
structure InferenceBuffer where
  ring : CircularBuffer InferenceRequest
  model_id : String
  threshold_percentage : Rat
  was_above_threshold : Bool

namespace InferenceBuffer

/-- Modelled from the spec: `InferenceBuffer::new(capacity, model_id,
threshold_percentage, emitter)` (§4.2 and the call in
`ModelContext::new`). -/
def new (capacity : Nat) (model_id : String) (threshold_percentage : Rat) :
    InferenceBuffer :=
  { ring := CircularBuffer.new InferenceRequest capacity
    model_id := model_id
    threshold_percentage := threshold_percentage
    was_above_threshold := false }

/-- Modelled from the spec: `fill_percentage()` returns
`100 · len / capacity` (§4.2); rational division by zero is 0, matching
the spec's "defined as 0 when capacity is 0". -/
def fill_percentage (b : InferenceBuffer) : Rat :=
  mkRat (100 * b.ring.len) b.ring.capacity

/-- Modelled from the spec: `push` (§4.2) — push into the ring, then
(1) emit `ThresholdReached` on a rising-edge crossing of the watermark,
(2) clear the edge flag when below the watermark, (3) emit `BufferFull`
when the push brought the length to capacity.  A ring panic propagates as
`none`. -/
def push (b : InferenceBuffer) (req : InferenceRequest) :
    Option (InferenceBuffer × List BufferEvent) :=
  match b.ring.push req with
  | none => none
  | some ring1 =>
    let fill : Rat := mkRat (100 * ring1.len) ring1.capacity
    let above1 : Bool := decide (b.threshold_percentage ≤ fill)
    let evs1 :=
      if b.threshold_percentage ≤ fill ∧ b.was_above_threshold = false then
        [BufferEvent.thresholdReached b.model_id ring1.len ring1.capacity fill]
      else []
    let evs2 :=
      if ring1.len = ring1.capacity then
        [BufferEvent.bufferFull b.model_id ring1.items ring1.capacity]
      else []
    some
      ({ b with ring := ring1, was_above_threshold := above1 }, evs1 ++ evs2)

/-- Modelled from the spec: `drain_contents()` (§4.2) returns the buffered
requests, empties the ring (length 0, cursor 0; §4.1 `drain_into`), and
resets the edge flag. -/
def drain_contents (b : InferenceBuffer) :
    InferenceBuffer × List InferenceRequest :=
  ({ b with
      ring := { buffer := [], capacity := b.ring.capacity, index := 0 }
      was_above_threshold := false },
    b.ring.buffer)

end InferenceBuffer

/-- `PendingInferenceRequest` (`scheduler.rs`): the request plus the
sending half of its one-shot channel, identified by channel id. -/
structure PendingInferenceRequest where
  request : InferenceRequest
  response_tx : Nat
deriving Repr, DecidableEq

/-- `ModelContext` (`scheduler.rs`). -/
structure ModelContext where
  buffer : InferenceBuffer
  runtime : InferenceRuntime
  pending_requests : List PendingInferenceRequest

namespace ModelContext

/-- `ModelContext::new` (`scheduler.rs` lines 34-53). -/
def new (runtime : InferenceRuntime) (buffer_capacity : Nat)
    (threshold_percentage : Rat) : ModelContext :=
  { buffer := InferenceBuffer.new buffer_capacity runtime.model_id
      threshold_percentage
    runtime := runtime
    pending_requests := [] }

/-- `ModelContext::add_request`: push a copy of the request into the
buffer, then append the pending request. -/
def add_request (ctx : ModelContext) (p : PendingInferenceRequest) :
    Option (ModelContext × List BufferEvent) :=
  match ctx.buffer.push p.request with
  | none => none
  | some (buf1, evs) =>
    some
      ({ ctx with
          buffer := buf1
          pending_requests := ctx.pending_requests ++ [p] },
        evs)

/-- `ModelContext::drain_buffer_contents`. -/
def drain_buffer_contents (ctx : ModelContext) :
    ModelContext × List InferenceRequest :=
  let (b1, reqs) := ctx.buffer.drain_contents
  ({ ctx with buffer := b1 }, reqs)

/-- `ModelContext::take_pending_requests` (`std::mem::take`). -/
def take_pending_requests (ctx : ModelContext) :
    ModelContext × List PendingInferenceRequest :=
  ({ ctx with pending_requests := [] }, ctx.pending_requests)

end ModelContext

/-- Channel table of allocated one-shot channels. -/
abbrev ChannelTable : Type :=
  List (Nat × Option InferenceResponse)

/-- One-shot `send`: record the value on the channel.  (Senders are moved
into a single send, so a channel is sent on at most once; a send whose
receiver no longer exists in the table is the ignored send error.) -/
def sendOnChannel (chs : ChannelTable) (c : Nat) (v : InferenceResponse) :
    ChannelTable :=
  chs.map (fun kv => if kv.1 = c then (kv.1, some v) else kv)

/-- What the receiving half of channel `c` observes: `none` if the channel
was never allocated, `some none` if allocated but no value was sent yet,
`some (some v)` once `v` was sent. -/
def channelValue (chs : ChannelTable) (c : Nat) :
    Option (Option InferenceResponse) :=
  (chs.find? (fun kv => kv.1 == c)).map (fun kv => kv.2)

/-- Association-list lookup on a `String`-keyed map, mirroring
`DashMap::get`. -/
def lookupCtx (m : List (String × ModelContext)) (k : String) :
    Option ModelContext :=
  (m.find? (fun kv => kv.1 == k)).map (fun kv => kv.2)

/-- In-place update of an entry, mirroring mutation through
`DashMap::get_mut`. -/
def updateCtx (m : List (String × ModelContext)) (k : String)
    (ctx : ModelContext) : List (String × ModelContext) :=
  m.map (fun kv => if kv.1 == k then (kv.1, ctx) else kv)

/-- `DashMap::insert`: replace an existing entry, else append. -/
def insertCtx (m : List (String × ModelContext)) (k : String)
    (ctx : ModelContext) : List (String × ModelContext) :=
  if m.any (fun kv => kv.1 == k) then updateCtx m k ctx
  else m ++ [(k, ctx)]

/-- The whole reachable state of an `EventDrivenModelManager` together
with its environment: `models` is the manager's own map; `consumer_models`
is the map the background event-consumer task captured at construction
(`scheduler.rs` lines 89-96 build it as a fresh `Arc::new(DashMap::new())`
and move it into the spawned task, while the struct's `models` field is a
second, separate `DashMap::new()`); `event_queue` is the buffer-event
channel; `channels` the one-shot channel table. -/
structure ManagerState where
  models : List (String × ModelContext)
  consumer_models : List (String × ModelContext)
  event_queue : List BufferEvent
  channels : ChannelTable
  next_channel : Nat
  default_buffer_capacity : Nat
  default_threshold_percentage : Rat

namespace EventDrivenModelManager

/-- `EventDrivenModelManager::new` (`scheduler.rs` lines 85-104): both
maps start empty, defaults are capacity 100 and threshold 80.0. -/
def new : ManagerState :=
  { models := []
    consumer_models := []
    event_queue := []
    channels := []
    next_channel := 0
    default_buffer_capacity := 100
    default_threshold_percentage := 80 }

/-- `EventDrivenModelManager::process_buffer_contents` (`scheduler.rs`
lines 182-201): run the batch if non-empty; the responses are only
counted and then discarded. -/
def process_buffer_contents (buffer_contents : List InferenceRequest)
    (runtime : InferenceRuntime) : List InferenceResponse :=
  if buffer_contents.isEmpty then []
  else runtime.process_batch buffer_contents

/-- `EventDrivenModelManager::process_batch_with_responses` (`scheduler.rs`
lines 204-217):

```rust
let responses = runtime.process_batch(requests).await;
for (pending, response) in pending_requests.into_iter().zip(responses.into_iter()) {
    if let Err(_) = pending.response_tx.send(response) { eprintln!(…); }
}
``` -/
def process_batch_with_responses (requests : List InferenceRequest)
    (pending_requests : List PendingInferenceRequest)
    (runtime : InferenceRuntime) (chs : ChannelTable) : ChannelTable :=
  let responses := runtime.process_batch requests
  (pending_requests.zip responses).foldl
    (fun a pr => sendOnChannel a pr.1.response_tx pr.2) chs

/-- `EventDrivenModelManager::trigger_offloading` (`scheduler.rs` lines
164-179): drain buffer and pending list, then (if the drained buffer is
non-empty) process the batch and route the responses. -/
def trigger_offloading (ctx : ModelContext) (chs : ChannelTable) :
    ModelContext × ChannelTable :=
  let (ctx1, buffer_contents) := ctx.drain_buffer_contents
  let (ctx2, pending_requests) := ctx1.take_pending_requests
  if buffer_contents.isEmpty then (ctx2, chs)
  else
    (ctx2,
      process_batch_with_responses buffer_contents pending_requests
        ctx2.runtime chs)

/-- `EventDrivenModelManager::handle_buffer_event` (`scheduler.rs` lines
107-161), acting on the consumer task's map and the channel table. -/
def handle_buffer_event (event : BufferEvent)
    (models : List (String × ModelContext)) (chs : ChannelTable) :
    List (String × ModelContext) × ChannelTable :=
  match event with
  | .thresholdReached model_id _ _ _ =>
    match lookupCtx models model_id with
    | some ctx =>
      let (ctx1, chs1) := trigger_offloading ctx chs
      (updateCtx models model_id ctx1, chs1)
    | none => (models, chs)
  | .bufferFull model_id buffer_contents _ =>
    match lookupCtx models model_id with
    | some ctx =>
      let _ := process_buffer_contents buffer_contents ctx.runtime
      (models, chs)
    | none => (models, chs)
  | .bufferStats _ _ _ _ => (models, chs)

/-- One step of the consumer task loop: receive the next event (if any)
and handle it against the captured map. -/
def consume_event (s : ManagerState) : ManagerState :=
  match s.event_queue with
  | [] => s
  | ev :: rest =>
    let (cm, chs) := handle_buffer_event ev s.consumer_models s.channels
    { s with consumer_models := cm, channels := chs, event_queue := rest }

/-- `EventDrivenModelManager::register_model` (`scheduler.rs` lines
219-232): build a fresh context from the runtime and the current defaults
and `insert` it into the manager's own map. -/
def register_model (s : ManagerState) (runtime : InferenceRuntime) :
    ManagerState :=
  let model_context := ModelContext.new runtime s.default_buffer_capacity
    s.default_threshold_percentage
  { s with models := insertCtx s.models runtime.model_id model_context }

/-- The `anyhow!` errors `process_inference` can return. -/
inductive ProcessError where
  | modelNotFound (name : String)
deriving Repr, DecidableEq

/-- `EventDrivenModelManager::process_inference` (`scheduler.rs` lines
234-264): reject unknown models; create a one-shot channel; under the
entry lock push the request and append the pending request (which may
emit buffer events); then call `process_single` directly and return its
result.  The one-shot receiver is never awaited; it is dropped when the
function returns.  A buffer panic (capacity 0) propagates as `none`. -/
def process_inference (s : ManagerState) (request : InferenceRequest) :
    Option (ManagerState × Except ProcessError InferenceResponse) :=
  match lookupCtx s.models request.model_name with
  | none => some (s, .error (.modelNotFound request.model_name))
  | some _ =>
    let response_tx := s.next_channel
    let s1 :=
      { s with
          channels := s.channels ++ [(response_tx, none)]
          next_channel := response_tx + 1 }
    match lookupCtx s1.models request.model_name with
    | none => some (s1, .error (.modelNotFound request.model_name))
    | some ctx =>
      match ctx.add_request ⟨request, response_tx⟩ with
      | none => none
      | some (ctx1, evs) =>
        let s2 :=
          { s1 with
              models := updateCtx s1.models request.model_name ctx1
              event_queue := s1.event_queue ++ evs }
        match lookupCtx s2.models request.model_name with
        | none => some (s2, .error (.modelNotFound request.model_name))
        | some entry =>
          some (s2, .ok (entry.runtime.process_single request))

/-- `EventDrivenModelManager::set_buffer_config` (`scheduler.rs` lines
277-285). -/
def set_buffer_config (s : ManagerState) (capacity : Nat)
    (threshold_percentage : Rat) : ManagerState × Except String Unit :=
  if threshold_percentage < 0 ∨ 100 < threshold_percentage then
    (s, .error "Threshold percentage must be between 0 and 100")
  else
    ({ s with
        default_buffer_capacity := capacity
        default_threshold_percentage := threshold_percentage },
      .ok ())

/-- The states an `EventDrivenModelManager` and its background consumer
task can reach, starting from `new` and interleaving the public
operations with consumer steps. -/
inductive Reachable : ManagerState → Prop where
  | init : Reachable new
  | register (s : ManagerState) (rt : InferenceRuntime) :
      Reachable s → Reachable (register_model s rt)
  | infer (s : ManagerState) (req : InferenceRequest) (s1 : ManagerState)
      (r : Except ProcessError InferenceResponse) :
      Reachable s → process_inference s req = some (s1, r) → Reachable s1
  | consume (s : ManagerState) : Reachable s → Reachable (consume_event s)
  | config (s : ManagerState) (capacity : Nat) (threshold_percentage : Rat) :
      Reachable s →
      Reachable (set_buffer_config s capacity threshold_percentage).1

end EventDrivenModelManager

/-! ## Concrete scenarios used to instantiate and to refute claims -/

namespace Fixtures

/-- A discovery environment with no readable filesystem and an empty
registry. -/
def envTrivial : DiscoveryEnv :=
  { isDir := fun _ => false
    readDir := fun _ => Except.error "io error"
    mlflowGet := fun _ _ _ => Except.ok none
    mlflowList := fun _ _ => Except.ok [] }

/-- A discovery service holding one registered model `"a"`. -/
def svcOne : ModelDiscoveryService :=
  (ModelDiscoveryService.new 4).register_model (ModelId.mk "a")

/-- A request for model `"m"`. -/
def reqM : InferenceRequest :=
  { model_name := "m", model_version := none, request_id := "r1", payload := 0 }

/-- A second request for model `"m"`. -/
def reqM2 : InferenceRequest :=
  { model_name := "m", model_version := none, request_id := "r2", payload := 1 }

/-- A runtime for model `"m"` whose single-shot answer differs from its
batch answers. -/
def echoRuntime : InferenceRuntime :=
  { model_id := "m"
    process_single := fun _ => InferenceResponse.failure "direct single path"
    process_batch :=
      fun reqs => reqs.map (fun _ => InferenceResponse.success 7) }

/-- A protocol-violating runtime: it returns exactly one response whatever
the batch size (and the same single-shot answer as `echoRuntime`). -/
def shortRuntime : InferenceRuntime :=
  { model_id := "m"
    process_single := fun _ => InferenceResponse.failure "direct single path"
    process_batch := fun _ => [InferenceResponse.success 7] }

/-- A second runtime for the same model id `"m"`, with different
answers. -/
def replacementRuntime : InferenceRuntime :=
  { model_id := "m"
    process_single := fun _ => InferenceResponse.success 42
    process_batch :=
      fun reqs => reqs.map (fun _ => InferenceResponse.success 42) }

/-- A manager with `echoRuntime` registered for `"m"`. -/
def mgrEcho : ManagerState :=
  EventDrivenModelManager.register_model EventDrivenModelManager.new
    echoRuntime

/-- The context `register_model` installs for `echoRuntime` under the
default configuration. -/
def ctxEcho : ModelContext :=
  ModelContext.new echoRuntime 100 80

/-- The state of that context after `add_request` of `reqM` with channel
0: one buffered request, one pending request, no events emitted. -/
def ctxEcho1 : ModelContext :=
  { buffer :=
      { ring := { buffer := [reqM], capacity := 100, index := 1 }
        model_id := "m"
        threshold_percentage := 80
        was_above_threshold := false }
    runtime := echoRuntime
    pending_requests := [⟨reqM, 0⟩] }

end Fixtures

namespace CircularBuffer

theorem pushAll_append (cb : CircularBuffer T) (xs ys : List T) :
    cb.pushAll (xs ++ ys) = (cb.pushAll xs).bind (fun b => b.pushAll ys) := by
  induction xs generalizing cb with
  | nil => simp [pushAll]
  | cons x xs ih =>
    simp only [List.cons_append, pushAll]
    cases cb.push x <;> simp [ih]

theorem pushAll_concat (cb : CircularBuffer T) (xs : List T) (y : T) :
    cb.pushAll (xs ++ [y]) = (cb.pushAll xs).bind (fun b => b.push y) := by
  rw [pushAll_append]
  cases cb.pushAll xs with
  | none => rfl
  | some b =>
    simp only [Option.bind_some, pushAll]
    cases b.push y <;> simp [pushAll]

/-- `push` on a non-full buffer appends to the backing vector. -/
theorem push_of_lt (cb : CircularBuffer T) (y : T) (h : cb.buffer.length < cb.capacity) :
    cb.push y =
      some ⟨cb.buffer ++ [y], cb.capacity, (cb.index + 1) % cb.capacity⟩ := by
  have hc : ¬ cb.capacity = 0 := by omega
  simp [push, h, hc]

/-- `push` on a full buffer (with the cursor in range) overwrites the slot
at the cursor. -/
theorem push_of_full (cb : CircularBuffer T) (y : T)
    (h1 : ¬ cb.buffer.length < cb.capacity) (h2 : cb.index < cb.buffer.length)
    (h3 : ¬ cb.capacity = 0) :
    cb.push y =
      some ⟨cb.buffer.set cb.index y, cb.capacity, (cb.index + 1) % cb.capacity⟩ := by
  simp [push, h1, h2, h3]

/-- Filling phase: as long as at most `capacity` elements have been pushed,
the backing vector is exactly the pushed list in order and the cursor is
`length % capacity`. -/
theorem pushAll_new_of_le (c : Nat) (xs : List T) (hle : xs.length ≤ c) :
    (CircularBuffer.new T c).pushAll xs = some ⟨xs, c, xs.length % c⟩ := by
  induction xs using List.reverseRecOn with
  | nil => simp [pushAll, new]
  | append_singleton ys y ih =>
    have hlen : ys.length + 1 ≤ c := by simpa using hle
    rw [pushAll_concat, ih (by omega), Option.some_bind,
      push_of_lt _ _ (by simpa using hlen)]
    simp [Nat.mod_add_mod]

theorem add_mod_ne_mod (k j c : Nat) (hc : 1 ≤ c) (hj0 : 0 < j) (hjc : j < c) :
    (k + j) % c ≠ k % c := by
  rw [← Nat.mod_add_mod]
  have hr : k % c < c := Nat.mod_lt _ hc
  by_cases hlt : k % c + j < c
  · rw [Nat.mod_eq_of_lt hlt]; omega
  · have : (k % c + j) % c = k % c + j - c := by
      rw [Nat.mod_eq_sub_mod (by omega), Nat.mod_eq_of_lt (by omega)]
    omega

/-- Wrap-around phase: after `capacity + k` pushes the backing vector has
length exactly `capacity`, the cursor sits at `k % capacity`, and slot
`(k + i) % capacity` holds the `(k + i)`-th pushed element — i.e. the last
`capacity` pushes, rotated by `k mod capacity` around the cursor. -/
theorem pushAll_new_full (c k : Nat) (hc : 1 ≤ c) (xs : List T)
    (hlen : xs.length = c + k) :
    ∃ b, (CircularBuffer.new T c).pushAll xs = some b ∧
      b.capacity = c ∧ b.buffer.length = c ∧ b.index = k % c ∧
      ∀ i, i < c → b.buffer[(k + i) % c]? = xs[k + i]? := by
  induction k generalizing xs with
  | zero =>
    refine ⟨⟨xs, c, xs.length % c⟩, pushAll_new_of_le c xs (by omega), rfl,
      by simpa using hlen, by simp [hlen], ?_⟩
    intro i hi
    simp only [Nat.zero_add, Nat.mod_eq_of_lt hi]
  | succ k ih =>
    rcases List.eq_nil_or_concat xs with rfl | ⟨ys, y, rfl⟩
    · simp at hlen; omega
    · simp only [List.concat_eq_append] at hlen ⊢
      have hys : ys.length = c + k := by simp at hlen; omega
      obtain ⟨b, hb, hcap, hblen, hidx, hcont⟩ := ih ys hys
      have hfull : ¬ b.buffer.length < b.capacity := by omega
      have hidxlt : b.index < b.buffer.length := by
        rw [hidx, hblen]; exact Nat.mod_lt _ hc
      have hc0 : ¬ b.capacity = 0 := by omega
      refine ⟨⟨b.buffer.set b.index y, b.capacity, (b.index + 1) % b.capacity⟩,
        ?_, hcap, by simpa using hblen, ?_, ?_⟩
      · rw [pushAll_concat, hb, Option.some_bind, push_of_full _ _ hfull hidxlt hc0]
      · simp only [hidx, hcap, Nat.mod_add_mod]
      · intro i hi
        by_cases hlast : i = c - 1
        · have hpos : (k + 1 + i) % c = k % c := by
            have : k + 1 + i = k + c := by omega
            rw [this, Nat.add_mod_right]
          rw [hpos, ← hidx, List.getElem?_set_self hidxlt]
          have hkc : k + 1 + i = ys.length := by omega
          rw [hkc, List.getElem?_concat_length]
        · have hne : (k + 1 + i) % c ≠ k % c := by
            have : k + 1 + i = k + (i + 1) := by omega
            rw [this]
            exact add_mod_ne_mod k (i + 1) c hc (by omega) (by omega)
          rw [List.getElem?_set_ne (by rw [hidx]; exact fun h => hne h.symm)]
          have harr : k + 1 + i = k + (i + 1) := by omega
          have hys_get : b.buffer[(k + (i + 1)) % c]? = ys[k + (i + 1)]? :=
            hcont (i + 1) (by omega)
          rw [harr, hys_get, List.getElem?_append]
          rw [if_pos (by omega)]

/-- Summary of a push sequence from `new c` for `c ≥ 1`: it never panics,
and the resulting length is `min count capacity` with the cursor at
`count % capacity`. -/
theorem pushAll_new_spec (c : Nat) (hc : 1 ≤ c) (xs : List T) :
    ∃ b, (CircularBuffer.new T c).pushAll xs = some b ∧
      b.capacity = c ∧ b.buffer.length = min xs.length c ∧
      b.index = xs.length % c := by
  by_cases hle : xs.length ≤ c
  · exact ⟨⟨xs, c, xs.length % c⟩, pushAll_new_of_le c xs hle, rfl,
      (Nat.min_eq_left hle).symm, rfl⟩
  · obtain ⟨b, hb, hcap, hblen, hidx, _⟩ :=
      pushAll_new_full c (xs.length - c) hc xs (by omega)
    refine ⟨b, hb, hcap, ?_, ?_⟩
    · omega
    · rw [hidx]
      conv_rhs => rw [show xs.length = c + (xs.length - c) by omega, Nat.add_mod_left]

end CircularBuffer

open CircularBuffer in
/-- C5: for every capacity `c ≥ 1` and every finite sequence of pushes
into `CircularBuffer::new(c)`, `len() = min(count, c)`, `is_empty()` holds
exactly when `len() = 0`, and `is_full()` holds exactly when
`len() = c`. -/
theorem C5_ring_len_is_min (T : Type) (c : Nat) (xs : List T) (hc : 1 ≤ c) :
    ∃ b : CircularBuffer T, (CircularBuffer.new T c).pushAll xs = some b ∧
      b.len = min xs.length c ∧
      (b.is_empty = true ↔ b.len = 0) ∧
      (b.is_full = true ↔ b.len = c) := by
  obtain ⟨b, hb, hcap, hlen, _⟩ := pushAll_new_spec c hc xs
  refine ⟨b, hb, hlen, ?_, ?_⟩
  · simp [CircularBuffer.is_empty, CircularBuffer.len, List.isEmpty_iff,
      List.length_eq_zero]
  · simp [CircularBuffer.is_full, CircularBuffer.len, hcap]

/-- Witness for C5 at `c = 2`, pushes `[5, 6, 7]`. -/
theorem C5_ring_len_is_min_witness :
    1 ≤ 2 ∧
      ∃ b : CircularBuffer Nat,
        (CircularBuffer.new Nat 2).pushAll [5, 6, 7] = some b ∧
        b.len = min ([5, 6, 7] : List Nat).length 2 ∧
        (b.is_empty = true ↔ b.len = 0) ∧
        (b.is_full = true ↔ b.len = 2) :=
  ⟨by decide, C5_ring_len_is_min Nat 2 [5, 6, 7] (by decide)⟩

open CircularBuffer in
/-- C6: after `c + k` pushes (`k > 0`, `c ≥ 1`) the backing sequence holds
the last `c` pushed elements rotated by `k mod c` around the write cursor:
slot `(k + i) mod c` holds push number `k + i` (0-based), the slot at the
cursor position holds the oldest surviving element, and for `c = 1` only
the last-pushed item is visible. -/
theorem C6_ring_rotation (T : Type) (c k : Nat) (xs : List T) (hc : 1 ≤ c)
    (hk : 1 ≤ k) (hlen : xs.length = c + k) :
    ∃ b : CircularBuffer T, (CircularBuffer.new T c).pushAll xs = some b ∧
      b.items.length = c ∧ b.index = k % c ∧
      (∀ i, i < c → b.items[(k + i) % c]? = xs[k + i]?) ∧
      b.items[b.index]? = xs[k]? ∧
      (c = 1 → ∃ x, b.items = [x] ∧ xs.getLast? = some x) := by
  obtain ⟨b, hb, hcap, hblen, hidx, hcont⟩ := pushAll_new_full c k hc xs hlen
  refine ⟨b, hb, hblen, hidx, hcont, ?_, ?_⟩
  · have h0 := hcont 0 hc
    simpa [hidx] using h0
  · intro hc1
    subst hc1
    obtain ⟨x, hx⟩ := List.length_eq_one.mp hblen
    refine ⟨x, hx, ?_⟩
    have h0 := hcont 0 (by omega)
    rw [List.getLast?_eq_getElem?]
    have hkmod : (k + 0) % 1 = 0 := by omega
    rw [hkmod] at h0
    rw [show xs.length - 1 = k + 0 by omega, ← h0, hx]
    rfl

/-- Witness for C6 at `c = 3`, `k = 2`, pushes `[1, 2, 3, 4, 5]`. -/
theorem C6_ring_rotation_witness :
    1 ≤ 3 ∧ 1 ≤ 2 ∧ ([1, 2, 3, 4, 5] : List Nat).length = 3 + 2 ∧
      ∃ b : CircularBuffer Nat,
        (CircularBuffer.new Nat 3).pushAll [1, 2, 3, 4, 5] = some b ∧
        b.items.length = 3 ∧ b.index = 2 % 3 ∧
        (∀ i, i < 3 → b.items[(2 + i) % 3]? = ([1, 2, 3, 4, 5] : List Nat)[2 + i]?) ∧
        b.items[b.index]? = ([1, 2, 3, 4, 5] : List Nat)[2]? ∧
        (3 = 1 → ∃ x, b.items = [x] ∧ ([1, 2, 3, 4, 5] : List Nat).getLast? = some x) :=
  ⟨by decide, by decide, by decide,
    C6_ring_rotation Nat 3 2 [1, 2, 3, 4, 5] (by decide) (by decide) (by decide)⟩

open CircularBuffer in
/-- C7: under the precondition `capacity ≥ 1` a push sequence from
`CircularBuffer::new(c)` never panics (the cursor reduction
`(index + 1) % capacity` stays well defined, and every observer is a total
function); the ring's own constructor does not reject capacity 0 — a
capacity-0 ring is constructible (with length 0), so rejecting capacity 0
is left to the layer above. -/
theorem C7_ring_no_panic (T : Type) (c : Nat) (xs : List T) (hc : 1 ≤ c) :
    ((CircularBuffer.new T c).pushAll xs).isSome = true ∧
    CircularBuffer.new T 0 = ⟨[], 0, 0⟩ ∧
    (CircularBuffer.new T 0).len = 0 ∧
    (CircularBuffer.new T 0).is_empty = true := by
  obtain ⟨b, hb, _⟩ := pushAll_new_spec c hc xs
  exact ⟨by simp [hb], rfl, rfl, rfl⟩

/-- Witness for C7 at `c = 1`, pushes `[0, 0]`. -/
theorem C7_ring_no_panic_witness :
    1 ≤ 1 ∧
      (((CircularBuffer.new Nat 1).pushAll [0, 0]).isSome = true ∧
        CircularBuffer.new Nat 0 = ⟨[], 0, 0⟩ ∧
        (CircularBuffer.new Nat 0).len = 0 ∧
        (CircularBuffer.new Nat 0).is_empty = true) :=
  ⟨by decide, C7_ring_no_panic Nat 1 [0, 0] (by decide)⟩

namespace RustPath

theorem splitOnChar_ne_nil (sep : Char) (p : List Char) :
    splitOnChar sep p ≠ [] := by
  induction p with
  | nil => simp [splitOnChar]
  | cons c cs ih =>
    simp only [splitOnChar]
    by_cases h : c = sep
    · simp [h]
    · rw [if_neg h]
      cases hs : splitOnChar sep cs with
      | nil => simp
      | cons s rest => simp

/-- Appending a separator appends one empty segment. -/
theorem splitOnChar_append_sep (sep : Char) (p : List Char) :
    splitOnChar sep (p ++ [sep]) = splitOnChar sep p ++ [[]] := by
  induction p with
  | nil => simp [splitOnChar]
  | cons c cs ih =>
    simp only [List.cons_append, splitOnChar, List.append_eq]
    by_cases h : c = sep
    · rw [if_pos h, if_pos h, ih]
      rfl
    · rw [if_neg h, if_neg h, ih]
      cases hs : splitOnChar sep cs with
      | nil => exact absurd hs (splitOnChar_ne_nil sep cs)
      | cons s rest => simp

/-- A trailing separator does not change the normalized path segments. -/
theorem pathSegments_append_sep (p : List Char) :
    pathSegments (p ++ ['/']) = pathSegments p := by
  simp [pathSegments, splitOnChar_append_sep, List.filter_append]

theorem fileName_append_sep (p : List Char) :
    fileName (p ++ ['/']) = fileName p := by
  simp [fileName, pathSegments_append_sep]

theorem extension_congr {p q : List Char} (h : fileName p = fileName q) :
    extension p = extension q := by
  unfold extension
  rw [h]

end RustPath

/-- C8 counterexample: the path `"/models/b.py/"` ends in a separator yet
`ModelId::from_path` accepts it — Rust's `Path::file_name` normalizes the
trailing separator away, so the claim's "a path with a trailing separator
is rejected" is false on this input. -/
theorem C8_counterexample :
    ModelId.from_path ("/models/b.py/".toList) = some (ModelId.mk "b.py") := by
  decide

/-- C8 amended: `from_path p` returns `Some` exactly when `p` has a final
normal path component and that component has an extension, and the value
is the final component including its extension; a final component without
an extension is rejected; a trailing separator is normalized away rather
than rejected — `from_path (p ++ "/") = from_path p`. -/
theorem C8_from_path_characterization (p : List Char) :
    ((ModelId.from_path p).isSome ↔
      (RustPath.fileName p).isSome ∧ (RustPath.extension p).isSome) ∧
    (∀ f, RustPath.fileName p = some f → (RustPath.extension p).isSome →
      ModelId.from_path p = some (ModelId.mk (String.mk f))) ∧
    ModelId.from_path (p ++ ['/']) = ModelId.from_path p := by
  refine ⟨?_, ?_, ?_⟩
  · unfold ModelId.from_path
    cases hf : RustPath.fileName p <;> cases he : RustPath.extension p <;>
      simp [hf, he]
  · intro f hf he
    unfold ModelId.from_path
    rw [hf]
    have hne : (RustPath.extension p).isNone = false := by
      cases hx : RustPath.extension p
      · rw [hx] at he; simp at he
      · rfl
    simp [hne]
  · unfold ModelId.from_path
    rw [RustPath.fileName_append_sep,
      RustPath.extension_congr (RustPath.fileName_append_sep p)]

/-- Witness for C8 at the path `"/models/my_model.py"`. -/
theorem C8_from_path_characterization_witness :
    RustPath.fileName ("/models/my_model.py".toList) =
      some ("my_model.py".toList) ∧
    (RustPath.extension ("/models/my_model.py".toList)).isSome = true ∧
    ModelId.from_path ("/models/my_model.py".toList) =
      some (ModelId.mk (String.mk ("my_model.py".toList))) :=
  ⟨by decide, by decide,
    (C8_from_path_characterization ("/models/my_model.py".toList)).2.1
      ("my_model.py".toList) (by decide) (by decide)⟩

/-- C9: `get_model` returns `None` when the registry responds 404, the
parsed registered model on a success (2xx) status, a failure carrying the
status and response body for any other non-success status, and propagates
transport errors as failures. -/
theorem C9_get_model_cases :
    (∀ e parse, get_model (HttpOutcome.transportError e) parse =
      Except.error (MLFlowError.transport e)) ∧
    (∀ body parse, get_model (HttpOutcome.response 404 body) parse =
      Except.ok none) ∧
    (∀ status body parse m, statusIsSuccess status = true →
      parse body = Except.ok m →
      get_model (HttpOutcome.response status body) parse =
        Except.ok (some m)) ∧
    (∀ status body parse, statusIsSuccess status = false → status ≠ 404 →
      get_model (HttpOutcome.response status body) parse =
        Except.error (MLFlowError.registry status body)) := by
  refine ⟨fun e parse => rfl, fun body parse => rfl, ?_, ?_⟩
  · intro status body parse m hs hp
    simp [get_model, hs, hp]
  · intro status body parse hs h404
    simp [get_model, hs, h404]

/-- Witness for C9: a 500 response maps to a registry failure carrying
status and body, and a 200 response parses into the model. -/
theorem C9_get_model_cases_witness :
    statusIsSuccess 500 = false ∧ (500 : Nat) ≠ 404 ∧
    get_model (HttpOutcome.response 500 "oops")
        (fun _ => Except.error "unused") =
      Except.error (MLFlowError.registry 500 "oops") :=
  ⟨by decide, by decide,
    C9_get_model_cases.2.2.2 500 "oops" (fun _ => Except.error "unused")
      (by decide) (by decide)⟩

namespace ModelDiscoveryService

theorem register_of_contains (s : ModelDiscoveryService) (id : ModelId)
    (h : s.containsModel id = true) : s.register_model id = s := by
  simp [register_model, h]

theorem contains_register_self (s : ModelDiscoveryService) (id : ModelId) :
    (s.register_model id).containsModel id = true := by
  unfold register_model
  by_cases h : s.containsModel id = true
  · simp [h]
  · simp only [h, Bool.false_eq_true, if_false]
    simp [containsModel]

theorem contains_mono_register (s : ModelDiscoveryService) (i j : ModelId)
    (h : s.containsModel j = true) :
    (s.register_model i).containsModel j = true := by
  unfold register_model
  by_cases hc : s.containsModel i = true
  · simpa [hc]
  · simp only [hc, Bool.false_eq_true, if_false]
    unfold containsModel at h ⊢
    simp only [List.any_append]
    simp [h]

theorem registerList_cons (s : ModelDiscoveryService) (i : ModelId)
    (ids : List ModelId) :
    s.registerList (i :: ids) = (s.register_model i).registerList ids := by
  simp [registerList]

theorem contains_mono_registerList (s : ModelDiscoveryService)
    (ids : List ModelId) (j : ModelId) (h : s.containsModel j = true) :
    (s.registerList ids).containsModel j = true := by
  induction ids generalizing s with
  | nil => exact h
  | cons i rest ih =>
    rw [registerList_cons]
    exact ih _ (contains_mono_register s i j h)

theorem contains_registerList_of_mem (s : ModelDiscoveryService)
    (ids : List ModelId) (j : ModelId) (h : j ∈ ids) :
    (s.registerList ids).containsModel j = true := by
  induction ids generalizing s with
  | nil => cases h
  | cons i rest ih =>
    rw [registerList_cons]
    rcases List.mem_cons.mp h with rfl | hmem
    · exact contains_mono_registerList _ rest j (contains_register_self s j)
    · exact ih _ hmem

theorem registerList_of_forall_contains (s : ModelDiscoveryService)
    (ids : List ModelId) (h : ∀ j ∈ ids, s.containsModel j = true) :
    s.registerList ids = s := by
  induction ids with
  | nil => rfl
  | cons i rest ih =>
    rw [registerList_cons, register_of_contains s i (h i (by simp))]
    exact ih (fun j hj => h j (List.mem_cons_of_mem i hj))

/-- Registering the same id list twice is the same as registering it
once. -/
theorem registerList_idem (s : ModelDiscoveryService) (ids : List ModelId) :
    (s.registerList ids).registerList ids = s.registerList ids :=
  registerList_of_forall_contains _ ids
    (fun j hj => contains_registerList_of_mem s ids j hj)

theorem registerList_append (s : ModelDiscoveryService)
    (a b : List ModelId) :
    s.registerList (a ++ b) = (s.registerList a).registerList b := by
  simp [registerList, List.foldl_append]

/-- One discovery step registers exactly `stepRegIds` and returns exactly
`stepOutcome` — both independent of the current service state. -/
theorem discoverStep_run (env : DiscoveryEnv) (s : ModelDiscoveryService)
    (src : ModelSource) :
    discoverStep env s src =
      (s.registerList (stepRegIds env src), stepOutcome env src) := by
  cases src with
  | path p =>
    unfold discoverStep stepRegIds stepOutcome
    by_cases hd : env.isDir p
    · simp only [hd, if_true]
      cases hr : env.readDir p with
      | error e => simp [load_models_from_dir, hr, registerList]
      | ok entries =>
        simp [load_models_from_dir, discover_from_directory, hr]
    · simp only [hd, if_false]
      cases hp : ModelId.from_path p <;> simp [registerList]
  | url u =>
    unfold discoverStep stepRegIds stepOutcome
    cases hu : ModelId.from_url u <;> simp [hu, registerList]
  | id str =>
    unfold discoverStep stepRegIds stepOutcome
    simp [registerList]
  | mlflow base_url api_token model_name =>
    unfold discoverStep stepRegIds stepOutcome discover_from_mlflow
    cases model_name with
    | some specific =>
      cases hg : env.mlflowGet base_url api_token specific with
      | error e => simp [hg, registerList]
      | ok om => cases om <;> simp [hg, registerList]
    | none =>
      cases hl : env.mlflowList base_url api_token <;> simp [hl, registerList]

/-- A whole discovery run registers exactly `runRegIds` and returns
exactly `runOutcome`. -/
theorem discover_models_run (env : DiscoveryEnv) (s : ModelDiscoveryService)
    (sources : List ModelSource) :
    discover_models env s sources =
      (s.registerList (runRegIds env sources), runOutcome env sources) := by
  induction sources generalizing s with
  | nil => simp [discover_models, runRegIds, runOutcome, registerList]
  | cons src rest ih =>
    unfold discover_models runRegIds runOutcome
    rw [discoverStep_run]
    cases ho : stepOutcome env src with
    | error e => simp
    | ok ids =>
      simp only
      rw [ih]
      cases hr : runOutcome env rest <;> simp [registerList_append]

end ModelDiscoveryService

open ModelDiscoveryService in
/-- C10: discovery is idempotent on the registration set —
`register_model` on an already-present model id leaves the service
(entry, buffer contents and all) unchanged, and running
`discover_models(S)` twice against the same registry yields the same
service state, in particular the same set of registered model ids, as
running it once. -/
theorem C10_discovery_idempotent (env : DiscoveryEnv)
    (s : ModelDiscoveryService) (sources : List ModelSource) (id : ModelId) :
    (s.containsModel id = true → s.register_model id = s) ∧
    (discover_models env (discover_models env s sources).1 sources).1 =
      (discover_models env s sources).1 ∧
    (discover_models env (discover_models env s sources).1 sources).1.models.map
        (fun kv => kv.1) =
      (discover_models env s sources).1.models.map (fun kv => kv.1) := by
  have hmain :
      (discover_models env (discover_models env s sources).1 sources).1 =
        (discover_models env s sources).1 := by
    rw [discover_models_run env s sources]
    simp only
    rw [discover_models_run]
    simp [registerList_idem]
  exact ⟨register_of_contains s id, hmain, by rw [hmain]⟩

/-- Witness for C10: an environment with an unreadable filesystem and an
empty registry, a service already holding `"a"`, and re-registration of
`"a"`. -/
theorem C10_discovery_idempotent_witness :
    Fixtures.svcOne.containsModel (ModelId.mk "a") = true ∧
    Fixtures.svcOne.register_model (ModelId.mk "a") = Fixtures.svcOne :=
  ⟨by decide,
    (C10_discovery_idempotent Fixtures.envTrivial Fixtures.svcOne
        [ModelSource.id "b"] (ModelId.mk "a")).1 (by decide)⟩

namespace EventDrivenModelManager

/-- Handling any event against an empty model map changes nothing: the
lookup fails, so no buffer is drained and no channel is written. -/
theorem handle_buffer_event_nil (ev : BufferEvent) (chs : ChannelTable) :
    handle_buffer_event ev [] chs = ([], chs) := by
  cases ev <;> simp [handle_buffer_event, lookupCtx]

/-- `process_inference` never touches the consumer task's map. -/
theorem process_inference_consumer_eq (s : ManagerState)
    (req : InferenceRequest) (s1 : ManagerState)
    (r : Except ProcessError InferenceResponse)
    (hp : process_inference s req = some (s1, r)) :
    s1.consumer_models = s.consumer_models := by
  unfold process_inference at hp
  cases h1 : lookupCtx s.models req.model_name with
  | none =>
    simp only [h1, Option.some.injEq, Prod.mk.injEq] at hp
    rw [← hp.1]
  | some ctx =>
    simp only [h1] at hp
    cases hadd : ctx.add_request ⟨req, s.next_channel⟩ with
    | none =>
      simp only [hadd] at hp
      exact absurd hp (by simp)
    | some pe =>
      obtain ⟨ctx1, evs⟩ := pe
      simp only [hadd] at hp
      cases h3 :
          lookupCtx (updateCtx s.models req.model_name ctx1) req.model_name with
      | none =>
        simp only [h3, Option.some.injEq, Prod.mk.injEq] at hp
        rw [← hp.1]
      | some entry =>
        simp only [h3, Option.some.injEq, Prod.mk.injEq] at hp
        rw [← hp.1]

/-- `set_buffer_config` never touches the consumer task's map. -/
theorem set_buffer_config_consumer_eq (s : ManagerState) (capacity : Nat)
    (threshold_percentage : Rat) :
    (set_buffer_config s capacity threshold_percentage).1.consumer_models =
      s.consumer_models := by
  unfold set_buffer_config
  split <;> rfl

/-- A consumer step keeps the captured map empty. -/
theorem consume_event_consumer_nil (s : ManagerState)
    (h : s.consumer_models = []) :
    (consume_event s).consumer_models = [] := by
  unfold consume_event
  cases hq : s.event_queue with
  | nil => exact h
  | cons ev rest => simp [h, handle_buffer_event_nil]

/-- Invariant: in every reachable state the map captured by the
background event-consumer task is empty — `register_model` and
`process_inference` insert only into the manager's own `models` field. -/
theorem reachable_consumer_nil (s : ManagerState) (h : Reachable s) :
    s.consumer_models = [] := by
  induction h with
  | init => rfl
  | register s rt hs ih => exact ih
  | infer s req s1 r hs hp ih =>
    rw [process_inference_consumer_eq s req s1 r hp]; exact ih
  | consume s hs ih => exact consume_event_consumer_nil s ih
  | config s capacity threshold hs ih =>
    rw [set_buffer_config_consumer_eq]; exact ih

end EventDrivenModelManager

open EventDrivenModelManager in
/-- C2: the model map captured by the background event-consumer task at
construction is a different map from the manager's own `models` field and
is never inserted into, so it is empty in every reachable state;
consequently handling any `ThresholdReached` or `BufferFull` event leaves
the captured map and the one-shot channel table unchanged — no event ever
drains a buffer or fulfills a pending promise of a model registered
through `register_model` — and a consumer step merely pops the event
queue. -/
theorem C2_consumer_map_stays_empty (s : ManagerState) (h : Reachable s) :
    s.consumer_models = [] ∧
    (∀ ev, handle_buffer_event ev s.consumer_models s.channels =
      (s.consumer_models, s.channels)) ∧
    consume_event s = { s with event_queue := s.event_queue.drop 1 } := by
  have hcm := reachable_consumer_nil s h
  refine ⟨hcm, ?_, ?_⟩
  · intro ev
    rw [hcm]
    exact handle_buffer_event_nil ev s.channels
  · obtain ⟨mo, cm, eq, ch, nc, dc, dt⟩ := s
    simp only at hcm
    subst hcm
    cases eq with
    | nil => rfl
    | cons ev rest => simp [consume_event, handle_buffer_event_nil]

theorem lookupCtx_updateCtx_self (m : List (String × ModelContext))
    (k : String) (ctx1 : ModelContext) (hc : (lookupCtx m k).isSome = true) :
    lookupCtx (updateCtx m k ctx1) k = some ctx1 := by
  induction m with
  | nil => simp [lookupCtx] at hc
  | cons kv rest ih =>
    by_cases hk : (kv.1 == k) = true
    · unfold lookupCtx updateCtx
      simp only [List.map_cons, hk, if_true]
      rw [List.find?_cons_of_pos _ (by simpa using hk)]
      rfl
    · simp only [Bool.not_eq_true] at hk
      simp only [lookupCtx] at hc
      rw [List.find?_cons_of_neg _ (by simp [hk])] at hc
      unfold lookupCtx updateCtx
      simp only [List.map_cons, hk, Bool.false_eq_true, if_false]
      rw [List.find?_cons_of_neg _ (by simp [hk])]
      exact ih hc

theorem channelValue_append_fresh (chs : ChannelTable) (c : Nat)
    (h : channelValue chs c = none) :
    channelValue (chs ++ [(c, none)]) c = some none := by
  unfold channelValue at h ⊢
  rw [List.find?_append]
  cases hf : chs.find? (fun kv => kv.1 == c) with
  | none => simp [List.find?]
  | some kv => rw [hf] at h; simp at h

/-- C1 counterexample: with `echoRuntime` registered, `process_inference`
returns the direct `process_single` answer; the one-shot channel it
created still holds no value when the call returns, and a flush of the
model context would route a different response (`success 7`) through that
channel. -/
theorem C1_counterexample :
    ∃ s1, EventDrivenModelManager.process_inference Fixtures.mgrEcho
        Fixtures.reqM =
      some (s1,
        Except.ok (InferenceResponse.failure "direct single path")) ∧
      channelValue s1.channels 0 = some none ∧
      (lookupCtx s1.models "m").map
          (fun ctx =>
            (EventDrivenModelManager.trigger_offloading ctx s1.channels).2) =
        some [(0, some (InferenceResponse.success 7))] ∧
      InferenceResponse.failure "direct single path" ≠
        InferenceResponse.success 7 :=
  ⟨_, rfl, rfl, rfl, by decide⟩

open EventDrivenModelManager in
/-- C1 amended: for every request whose model is registered,
`process_inference` creates a one-shot promise pair (a fresh channel
holding no value), pushes the request and appends the sender under the
model context, but then returns the result of a direct synchronous
`process_single` call on the runtime; the receiver is never awaited, and
nothing is sent on the new channel during the call, so the returned
response is not the one routed through the one-shot channel by the flush
protocol. -/
theorem C1_process_inference_direct (s : ManagerState)
    (req : InferenceRequest) (ctx ctx1 : ModelContext)
    (evs : List BufferEvent)
    (h : lookupCtx s.models req.model_name = some ctx)
    (hadd : ctx.add_request ⟨req, s.next_channel⟩ = some (ctx1, evs))
    (hfresh : channelValue s.channels s.next_channel = none) :
    process_inference s req =
      some
        ({ s with
            channels := s.channels ++ [(s.next_channel, none)]
            next_channel := s.next_channel + 1
            models := updateCtx s.models req.model_name ctx1
            event_queue := s.event_queue ++ evs },
          Except.ok (ctx1.runtime.process_single req)) ∧
    ctx1.pending_requests =
      ctx.pending_requests ++ [⟨req, s.next_channel⟩] ∧
    ctx1.runtime = ctx.runtime ∧
    channelValue (s.channels ++ [(s.next_channel, none)]) s.next_channel =
      some none := by
  have hctx1 : ctx1.pending_requests =
      ctx.pending_requests ++ [⟨req, s.next_channel⟩] ∧
      ctx1.runtime = ctx.runtime := by
    unfold ModelContext.add_request at hadd
    cases hpush : ctx.buffer.push req with
    | none => rw [hpush] at hadd; simp at hadd
    | some pe =>
      obtain ⟨buf1, evs1⟩ := pe
      rw [hpush] at hadd
      simp only [Option.some.injEq, Prod.mk.injEq] at hadd
      rw [← hadd.1]
      exact ⟨rfl, rfl⟩
  refine ⟨?_, hctx1.1, hctx1.2, channelValue_append_fresh _ _ hfresh⟩
  unfold process_inference
  simp only [h]
  simp only [hadd]
  rw [lookupCtx_updateCtx_self s.models req.model_name ctx1 (by simp [h])]

open EventDrivenModelManager in
/-- Witness for C1 (amended) at `mgrEcho` and `reqM`. -/
theorem C1_process_inference_direct_witness :
    lookupCtx Fixtures.mgrEcho.models Fixtures.reqM.model_name =
      some Fixtures.ctxEcho ∧
    Fixtures.ctxEcho.add_request
        ⟨Fixtures.reqM, Fixtures.mgrEcho.next_channel⟩ =
      some (Fixtures.ctxEcho1, []) ∧
    channelValue Fixtures.mgrEcho.channels Fixtures.mgrEcho.next_channel =
      none ∧
    (process_inference Fixtures.mgrEcho Fixtures.reqM =
      some
        ({ Fixtures.mgrEcho with
            channels :=
              Fixtures.mgrEcho.channels ++
                [(Fixtures.mgrEcho.next_channel, none)]
            next_channel := Fixtures.mgrEcho.next_channel + 1
            models := updateCtx Fixtures.mgrEcho.models
              Fixtures.reqM.model_name Fixtures.ctxEcho1
            event_queue := Fixtures.mgrEcho.event_queue ++ [] },
          Except.ok
            (Fixtures.ctxEcho1.runtime.process_single Fixtures.reqM)) ∧
      Fixtures.ctxEcho1.pending_requests =
        Fixtures.ctxEcho.pending_requests ++
          [⟨Fixtures.reqM, Fixtures.mgrEcho.next_channel⟩] ∧
      Fixtures.ctxEcho1.runtime = Fixtures.ctxEcho.runtime ∧
      channelValue
          (Fixtures.mgrEcho.channels ++
            [(Fixtures.mgrEcho.next_channel, none)])
          Fixtures.mgrEcho.next_channel =
        some none) :=
  ⟨rfl, rfl, rfl,
    C1_process_inference_direct Fixtures.mgrEcho Fixtures.reqM
      Fixtures.ctxEcho Fixtures.ctxEcho1 [] rfl rfl rfl⟩

theorem channelValue_sendOnChannel_self (chs : ChannelTable) (c : Nat)
    (v : InferenceResponse) :
    channelValue (sendOnChannel chs c v) c =
      (channelValue chs c).map (fun _ => some v) := by
  induction chs with
  | nil => rfl
  | cons kv rest ih =>
    unfold channelValue sendOnChannel at ih ⊢
    by_cases hk : kv.1 = c
    · have hb : (kv.1 == c) = true := by simp [hk]
      simp [List.find?, hk, hb]
    · have hb : (kv.1 == c) = false := by simp [hk]
      simp only [List.map_cons, if_neg hk, List.find?, hb]
      exact ih

theorem channelValue_sendOnChannel_ne (chs : ChannelTable) (c : Nat)
    (v : InferenceResponse) (d : Nat) (h : d ≠ c) :
    channelValue (sendOnChannel chs c v) d = channelValue chs d := by
  induction chs with
  | nil => rfl
  | cons kv rest ih =>
    unfold channelValue sendOnChannel at ih ⊢
    by_cases hk : kv.1 = c
    · have hkd : (kv.1 == d) = false := by
        simp only [beq_eq_false_iff_ne, ne_eq, hk]
        omega
      simp only [List.map_cons, if_pos hk, List.find?, hkd]
      exact ih
    · by_cases hd : (kv.1 == d) = true
      · simp [List.find?, if_neg hk, hd]
      · have hd' : (kv.1 == d) = false := by
          simp only [Bool.not_eq_true] at hd
          exact hd
        simp only [List.map_cons, if_neg hk, List.find?, hd']
        exact ih

/-- Channels that no send in the list targets keep their value across the
send loop. -/
theorem sendFold_not_sent (l : List (PendingInferenceRequest × InferenceResponse))
    (chs : ChannelTable) (d : Nat)
    (h : ∀ pr ∈ l, pr.1.response_tx ≠ d) :
    channelValue
        (l.foldl (fun a pr => sendOnChannel a pr.1.response_tx pr.2) chs) d =
      channelValue chs d := by
  induction l generalizing chs with
  | nil => rfl
  | cons pr rest ih =>
    rw [List.foldl_cons, ih _ (fun q hq => h q (List.mem_cons_of_mem pr hq))]
    exact channelValue_sendOnChannel_ne chs pr.1.response_tx pr.2 d
      (Ne.symm (h pr (by simp)))

/-- If no other send in the list targets the channel of entry `i`, the
send loop sets exactly that entry's response on it. -/
theorem sendFold_at (l : List (PendingInferenceRequest × InferenceResponse))
    (chs : ChannelTable) (i : Nat) (hi : i < l.length)
    (hdist : ∀ j, (hj : j < l.length) → j ≠ i →
      l[j].1.response_tx ≠ l[i].1.response_tx) :
    channelValue
        (l.foldl (fun a pr => sendOnChannel a pr.1.response_tx pr.2) chs)
        (l[i].1.response_tx) =
      (channelValue chs (l[i].1.response_tx)).map
        (fun _ => some l[i].2) := by
  induction l generalizing chs i with
  | nil => cases hi
  | cons pr rest ih =>
    rw [List.foldl_cons]
    cases i with
    | zero =>
      simp only [List.getElem_cons_zero]
      have hrest : ∀ q ∈ rest, q.1.response_tx ≠ pr.1.response_tx := by
        intro q hq
        obtain ⟨j, hj, hqe⟩ := List.mem_iff_getElem.mp hq
        rw [← hqe]
        have hd := hdist (j + 1) (by simp; omega) (by omega)
        simpa using hd
      rw [sendFold_not_sent rest _ _ hrest]
      exact channelValue_sendOnChannel_self chs pr.1.response_tx pr.2
    | succ j =>
      have hj : j < rest.length := by simp at hi; omega
      simp only [List.getElem_cons_succ]
      have hne0 : pr.1.response_tx ≠ rest[j].1.response_tx := by
        have hd := hdist 0 (by simp) (by omega)
        simpa using hd
      have hdist' : ∀ j2, (hj2 : j2 < rest.length) → j2 ≠ j →
          rest[j2].1.response_tx ≠ rest[j].1.response_tx := by
        intro j2 hj2 hj2j
        have hd := hdist (j2 + 1) (by simp; omega) (by omega)
        simpa using hd
      rw [ih (sendOnChannel chs pr.1.response_tx pr.2) j hj hdist',
        channelValue_sendOnChannel_ne chs pr.1.response_tx pr.2 _
          (Ne.symm hne0)]

open EventDrivenModelManager in
/-- C3 counterexample: with a runtime that returns a single response for a
two-request batch, the first pending promise receives the response and the
surplus second one receives nothing — its channel still holds no value; no
`RuntimeProtocolError` failure is sent. -/
theorem C3_counterexample :
    process_batch_with_responses
        [Fixtures.reqM, Fixtures.reqM2]
        [⟨Fixtures.reqM, 0⟩, ⟨Fixtures.reqM2, 1⟩]
        Fixtures.shortRuntime [(0, none), (1, none)] =
      [(0, some (InferenceResponse.success 7)), (1, none)] ∧
    channelValue
        (process_batch_with_responses
          [Fixtures.reqM, Fixtures.reqM2]
          [⟨Fixtures.reqM, 0⟩, ⟨Fixtures.reqM2, 1⟩]
          Fixtures.shortRuntime [(0, none), (1, none)]) 1 =
      some none :=
  ⟨rfl, rfl⟩

open EventDrivenModelManager in
/-- C3 amended: during a flush, responses are paired with pending promises
index-wise by `zip`, which truncates at the shorter list; pending promise
`i` receives `responses[i]` when `i < |responses|`, and when the runtime
returns fewer responses than there are pending promises every surplus
pending promise receives no value at all — its channel is left untouched
(no `RuntimeProtocolError` failure is sent). -/
theorem C3_zip_truncation (requests : List InferenceRequest)
    (pending : List PendingInferenceRequest) (rt : InferenceRuntime)
    (chs : ChannelTable)
    (hnodup : (pending.map (fun p => p.response_tx)).Nodup) :
    (∀ i, (hi : i < pending.length) →
      (hr : i < (rt.process_batch requests).length) →
      channelValue (process_batch_with_responses requests pending rt chs)
          pending[i].response_tx =
        (channelValue chs pending[i].response_tx).map
          (fun _ => some (rt.process_batch requests)[i])) ∧
    (∀ i, (hi : i < pending.length) →
      (rt.process_batch requests).length ≤ i →
      channelValue (process_batch_with_responses requests pending rt chs)
          pending[i].response_tx =
        channelValue chs pending[i].response_tx) := by
  have hinj : ∀ j i, (hj : j < pending.length) → (hi : i < pending.length) →
      j ≠ i → pending[j].response_tx ≠ pending[i].response_tx := by
    intro j i hj hi hji heq
    have hinj' := List.nodup_iff_injective_get.mp hnodup
    have heq' : (pending.map (fun p => p.response_tx)).get
          ⟨j, by simpa using hj⟩ =
        (pending.map (fun p => p.response_tx)).get ⟨i, by simpa using hi⟩ := by
      simpa using heq
    have hfin := hinj' heq'
    simp only [Fin.mk.injEq] at hfin
    exact hji hfin
  constructor
  · intro i hi hr
    unfold process_batch_with_responses
    have hzlen : i < (pending.zip (rt.process_batch requests)).length := by
      simp [List.length_zip]
      omega
    have hzget : (pending.zip (rt.process_batch requests))[i] =
        (pending[i], (rt.process_batch requests)[i]) := by
      simp
    have hzdist : ∀ j,
        (hj : j < (pending.zip (rt.process_batch requests)).length) →
        j ≠ i →
        (pending.zip (rt.process_batch requests))[j].1.response_tx ≠
          (pending.zip (rt.process_batch requests))[i].1.response_tx := by
      intro j hj hji
      have hjp : j < pending.length := by
        simp [List.length_zip] at hj
        omega
      have hjr : j < (rt.process_batch requests).length := by
        simp [List.length_zip] at hj
        omega
      have hjget : (pending.zip (rt.process_batch requests))[j] =
          (pending[j], (rt.process_batch requests)[j]) := by
        simp
      rw [hjget, hzget]
      exact hinj j i hjp hi hji
    have hfold := sendFold_at (pending.zip (rt.process_batch requests)) chs i
      hzlen hzdist
    rw [hzget] at hfold
    exact hfold
  · intro i hi hle
    unfold process_batch_with_responses
    apply sendFold_not_sent
    intro pr hpr
    obtain ⟨j, hj, hje⟩ := List.mem_iff_getElem.mp hpr
    have hjp : j < pending.length := by
      simp [List.length_zip] at hj
      omega
    have hjr : j < (rt.process_batch requests).length := by
      simp [List.length_zip] at hj
      omega
    have hjget : (pending.zip (rt.process_batch requests))[j] =
        (pending[j], (rt.process_batch requests)[j]) := by
      simp
    rw [← hje, hjget]
    exact hinj j i hjp hi (by omega)

open EventDrivenModelManager in
/-- Witness for C3 (amended): the surplus second promise of the
counterexample scenario keeps its empty channel. -/
theorem C3_zip_truncation_witness :
    (([⟨Fixtures.reqM, 0⟩, ⟨Fixtures.reqM2, 1⟩] :
        List PendingInferenceRequest).map
      (fun p => p.response_tx)).Nodup ∧
    channelValue
        (process_batch_with_responses
          [Fixtures.reqM, Fixtures.reqM2]
          [⟨Fixtures.reqM, 0⟩, ⟨Fixtures.reqM2, 1⟩]
          Fixtures.shortRuntime [(0, none), (1, none)])
        (([⟨Fixtures.reqM, 0⟩, ⟨Fixtures.reqM2, 1⟩] :
            List PendingInferenceRequest)[1].response_tx) =
      channelValue [(0, none), (1, none)]
        (([⟨Fixtures.reqM, 0⟩, ⟨Fixtures.reqM2, 1⟩] :
            List PendingInferenceRequest)[1].response_tx) :=
  ⟨by decide,
    (C3_zip_truncation [Fixtures.reqM, Fixtures.reqM2]
        [⟨Fixtures.reqM, 0⟩, ⟨Fixtures.reqM2, 1⟩]
        Fixtures.shortRuntime [(0, none), (1, none)] (by decide)).2
      1 (by decide) (by decide)⟩

theorem lookupCtx_isSome_of_any (m : List (String × ModelContext))
    (k : String) (h : m.any (fun kv => kv.1 == k) = true) :
    (lookupCtx m k).isSome = true := by
  unfold lookupCtx
  obtain ⟨x, hx, hpx⟩ := List.any_eq_true.mp h
  cases hf : m.find? (fun kv => kv.1 == k) with
  | none =>
    rw [List.find?_eq_none] at hf
    exact absurd hpx (by simpa using hf x hx)
  | some y => rfl

theorem lookupCtx_eq_none_of_any_eq_false (m : List (String × ModelContext))
    (k : String) (h : m.any (fun kv => kv.1 == k) = false) :
    lookupCtx m k = none := by
  unfold lookupCtx
  rw [List.find?_eq_none.mpr]
  · rfl
  · intro x hx
    have := List.any_eq_false.mp h x hx
    simpa using this

theorem lookupCtx_append_single (m : List (String × ModelContext))
    (k : String) (ctx : ModelContext)
    (h : m.any (fun kv => kv.1 == k) = false) :
    lookupCtx (m ++ [(k, ctx)]) k = some ctx := by
  unfold lookupCtx
  rw [List.find?_append]
  have hnone : m.find? (fun kv => kv.1 == k) = none := by
    rw [List.find?_eq_none]
    intro x hx
    have := List.any_eq_false.mp h x hx
    simpa using this
  rw [hnone]
  simp [List.find?]

theorem lookupCtx_insertCtx_self (m : List (String × ModelContext))
    (k : String) (ctx : ModelContext) :
    lookupCtx (insertCtx m k ctx) k = some ctx := by
  unfold insertCtx
  by_cases ha : m.any (fun kv => kv.1 == k) = true
  · simp only [ha, if_true]
    exact lookupCtx_updateCtx_self m k ctx (lookupCtx_isSome_of_any m k ha)
  · have ha' : m.any (fun kv => kv.1 == k) = false := Bool.eq_false_iff.mpr ha
    simp only [ha', Bool.false_eq_true, if_false]
    exact lookupCtx_append_single m k ctx ha'

theorem lookupCtx_updateCtx_ne (m : List (String × ModelContext))
    (k : String) (ctx : ModelContext) (d : String) (h : d ≠ k) :
    lookupCtx (updateCtx m k ctx) d = lookupCtx m d := by
  induction m with
  | nil => rfl
  | cons kv rest ih =>
    unfold lookupCtx updateCtx at ih ⊢
    by_cases hk : (kv.1 == k) = true
    · have hkeq : kv.1 = k := eq_of_beq hk
      have hkd : (kv.1 == d) = false := by
        simp only [beq_eq_false_iff_ne, ne_eq, hkeq]
        exact fun hq => h hq.symm
      simp only [List.map_cons, hk, if_true, List.find?, hkd]
      exact ih
    · have hk' : (kv.1 == k) = false := by simpa using hk
      by_cases hd : (kv.1 == d) = true
      · simp [List.find?, hk', hd]
      · have hd' : (kv.1 == d) = false := by simpa using hd
        simp only [List.map_cons, hk', Bool.false_eq_true, if_false,
          List.find?, hd']
        exact ih

theorem lookupCtx_insertCtx_ne (m : List (String × ModelContext))
    (k : String) (ctx : ModelContext) (d : String) (h : d ≠ k) :
    lookupCtx (insertCtx m k ctx) d = lookupCtx m d := by
  unfold insertCtx
  by_cases ha : m.any (fun kv => kv.1 == k) = true
  · simp only [ha, if_true]
    exact lookupCtx_updateCtx_ne m k ctx d h
  · have ha' : m.any (fun kv => kv.1 == k) = false := Bool.eq_false_iff.mpr ha
    simp only [ha', Bool.false_eq_true, if_false]
    unfold lookupCtx
    rw [List.find?_append]
    have htail : List.find? (fun kv => kv.1 == d) [(k, ctx)] = none := by
      have hkd : (k == d) = false :=
        beq_eq_false_iff_ne.mpr (fun hq => h hq.symm)
      simp [List.find?, hkd]
    rw [htail]
    cases m.find? (fun kv => kv.1 == d) <;> rfl

open EventDrivenModelManager in
/-- C4 counterexample: after one buffered request for `"m"`, a second
`register_model` for the same model id installs a fresh context — the
pending list and buffer are reset and the new runtime answers — instead of
retaining the existing context. -/
theorem C4_counterexample :
    ∃ s1 r, process_inference Fixtures.mgrEcho Fixtures.reqM = some (s1, r) ∧
      (lookupCtx s1.models "m").map
          (fun c => c.pending_requests.length) = some 1 ∧
      (lookupCtx (register_model s1 Fixtures.replacementRuntime).models
            "m").map
          (fun c =>
            (c.pending_requests.length, c.buffer.ring.len,
              c.runtime.process_single Fixtures.reqM)) =
        some (0, 0, InferenceResponse.success 42) :=
  ⟨_, _, rfl, rfl, rfl⟩

open EventDrivenModelManager in
/-- C4 amended: `register_model` is insert-or-replace, not idempotent —
registering always installs a freshly built context (empty buffer, empty
pending list) from the supplied runtime under the current defaults,
replacing any existing context for the same model id; entries for other
model ids are untouched. -/
theorem C4_register_replaces (s : ManagerState) (rt rt2 : InferenceRuntime)
    (k : String) :
    lookupCtx (register_model s rt).models rt.model_id =
      some (ModelContext.new rt s.default_buffer_capacity
        s.default_threshold_percentage) ∧
    (rt2.model_id = rt.model_id →
      lookupCtx (register_model (register_model s rt) rt2).models
          rt.model_id =
        some (ModelContext.new rt2 s.default_buffer_capacity
          s.default_threshold_percentage)) ∧
    (k ≠ rt.model_id →
      lookupCtx (register_model s rt).models k = lookupCtx s.models k) := by
  refine ⟨?_, ?_, ?_⟩
  · unfold register_model
    exact lookupCtx_insertCtx_self s.models rt.model_id _
  · intro he
    unfold register_model
    rw [← he]
    exact lookupCtx_insertCtx_self _ rt2.model_id _
  · intro hk
    unfold register_model
    exact lookupCtx_insertCtx_ne s.models rt.model_id _ k hk

open EventDrivenModelManager in
/-- Witness for C4 (amended) with `echoRuntime`, then
`replacementRuntime` for the same model id, and an unrelated key. -/
theorem C4_register_replaces_witness :
    Fixtures.replacementRuntime.model_id = Fixtures.echoRuntime.model_id ∧
    "other" ≠ Fixtures.echoRuntime.model_id ∧
    (lookupCtx
        (register_model EventDrivenModelManager.new
          Fixtures.echoRuntime).models Fixtures.echoRuntime.model_id =
      some (ModelContext.new Fixtures.echoRuntime
        EventDrivenModelManager.new.default_buffer_capacity
        EventDrivenModelManager.new.default_threshold_percentage) ∧
    (Fixtures.replacementRuntime.model_id = Fixtures.echoRuntime.model_id →
      lookupCtx
          (register_model
            (register_model EventDrivenModelManager.new
              Fixtures.echoRuntime)
            Fixtures.replacementRuntime).models
          Fixtures.echoRuntime.model_id =
        some (ModelContext.new Fixtures.replacementRuntime
          EventDrivenModelManager.new.default_buffer_capacity
          EventDrivenModelManager.new.default_threshold_percentage)) ∧
    ("other" ≠ Fixtures.echoRuntime.model_id →
      lookupCtx
          (register_model EventDrivenModelManager.new
            Fixtures.echoRuntime).models "other" =
        lookupCtx EventDrivenModelManager.new.models "other")) :=
  ⟨rfl, by decide,
    C4_register_replaces EventDrivenModelManager.new Fixtures.echoRuntime
      Fixtures.replacementRuntime "other"⟩

open EventDrivenModelManager in
/-- Witness for C2 at the reachable state with `echoRuntime`
registered. -/
theorem C2_consumer_map_stays_empty_witness :
    Fixtures.mgrEcho.consumer_models = [] ∧
    (∀ ev, handle_buffer_event ev Fixtures.mgrEcho.consumer_models
        Fixtures.mgrEcho.channels =
      (Fixtures.mgrEcho.consumer_models, Fixtures.mgrEcho.channels)) ∧
    consume_event Fixtures.mgrEcho =
      { Fixtures.mgrEcho with
          event_queue := Fixtures.mgrEcho.event_queue.drop 1 } :=
  C2_consumer_map_stays_empty Fixtures.mgrEcho
    (Reachable.register EventDrivenModelManager.new Fixtures.echoRuntime
      Reachable.init)

end GaleMind
